import Mathlib

/-!
Verification of the two specified components of the `dashboard` repository:

* the scheduled-report next-run calculator
  (`calculateNextRun` in `src/models/report.model.ts`), together with the
  mongoose validators of the `schedule` sub-document, and
* the message-thread resolver
  (`messageSchema.pre('save')` / `messageSchema.post('save')` in
  `src/models/reportTemplate.model.ts`) together with the message
  controllers (`sendMessage` / `updateMessage`) and the secondary
  message-posting route.

Datetimes are embedded structurally (year / month / day / hour / minute /
second, JavaScript conventions: months are 0-based, days 1-based, all in
UTC — the source's timezone branch computes a zero offset).  JavaScript
`Date` comparisons compare epoch milliseconds; for in-range Gregorian
field vectors that order coincides with the lexicographic order on the
fields, which we realise through the strictly monotone linear key
`toKey`.  Instants are modelled at second granularity.
-/

/-- Leap year test, as JavaScript's Gregorian calendar has it. -/
def isLeap (y : Nat) : Bool :=
  y % 4 == 0 && (y % 100 != 0 || y % 400 == 0)

def daysInYear (y : Nat) : Nat :=
  if isLeap y then 366 else 365

/-- Number of days of month `m` (0-based, JavaScript style) of year `y`. -/
def daysInMonth (y : Nat) (m : Nat) : Nat :=
  match m with
  | 0 => 31
  | 1 => if isLeap y then 29 else 28
  | 2 => 31
  | 3 => 30
  | 4 => 31
  | 5 => 30
  | 6 => 31
  | 7 => 31
  | 8 => 30
  | 9 => 31
  | 10 => 30
  | _ => 31

/-- Leap years among `0, 1, ..., y - 1` (proleptic Gregorian). -/
def leapsBefore (y : Nat) : Nat :=
  ((y + 3) / 4 + (y + 399) / 400) - (y + 99) / 100

/-- Days from year 0, Jan 1 up to year `y`, Jan 1. -/
def daysBeforeYear (y : Nat) : Nat :=
  365 * y + leapsBefore y

/-- Days from the first of the year up to the first of month `m`. -/
def daysBeforeMonth (y : Nat) : Nat → Nat
  | 0 => 0
  | m + 1 => daysBeforeMonth y m + daysInMonth y m

/-- Linear day count of the civil date `(y, m, d)` (d is 1-based). -/
def dayNumber (y m d : Nat) : Nat :=
  daysBeforeYear y + daysBeforeMonth y m + (d - 1)

/-- A structural datetime; fields follow JavaScript `Date` conventions
(`month` 0–11, `day` 1-based), interpreted in UTC. -/
structure DTime where
  year : Nat
  month : Nat
  day : Nat
  hour : Nat
  minute : Nat
  second : Nat
deriving DecidableEq, Repr

/-- The field vector denotes an actual instant. -/
def ValidDT (t : DTime) : Prop :=
  t.month ≤ 11 ∧ 1 ≤ t.day ∧ t.day ≤ daysInMonth t.year t.month ∧
    t.hour ≤ 23 ∧ t.minute ≤ 59 ∧ t.second ≤ 59

instance : DecidablePred ValidDT := fun _ => by
  unfold ValidDT; infer_instance

/-- Strictly monotone linear key realising the lexicographic (= epoch
time, on valid datetimes) order: `32 > 31 ≥ day`, `24 > hour`, etc. -/
def toKey (t : DTime) : Nat :=
  t.year * 33177600 + t.month * 2764800 + t.day * 86400 +
    t.hour * 3600 + t.minute * 60 + t.second

/-- JavaScript's `MakeDay` day-overflow normalisation: while the day
exceeds the month's length, move to the next month.  Structured with
explicit fuel; `fuel ≥ d` always suffices (the day shrinks by at least
28 each step). -/
def normDateAux : Nat → Nat → Nat → Nat → Nat × Nat × Nat
  | 0, y, m, d => (y, m, d)
  | fuel + 1, y, m, d =>
    if d ≤ daysInMonth y m then (y, m, d)
    else if m = 11 then normDateAux fuel (y + 1) 0 (d - daysInMonth y m)
    else normDateAux fuel y (m + 1) (d - daysInMonth y m)

def normDate (y m d : Nat) : Nat × Nat × Nat :=
  normDateAux d y m d

/-- `t.setDate(d)` for `d ≥ 1`: replace the day of month, letting the
overflow spill into the following months (JavaScript semantics). -/
def setDays (t : DTime) (d : Nat) : DTime :=
  let ymd := normDate t.year t.month d
  ⟨ymd.1, ymd.2.1, ymd.2.2, t.hour, t.minute, t.second⟩

/-- `getDay()`: day of week, Sunday = 0.  Year 0, Jan 1 (proleptic
Gregorian) is a Saturday, and a 400-year cycle is a multiple of 7 days. -/
def dowOf (t : DTime) : Nat :=
  (dayNumber t.year t.month t.day + 6) % 7

/-- Digit test on a character's code point (regex `\d`). -/
def isDig (c : Char) : Bool :=
  48 ≤ c.toNat && c.toNat ≤ 57

def digVal (c : Char) : Nat :=
  c.toNat - 48

/-- The source's `HH:MM` regex `^([01]\d|2[0-3]):([0-5]\d)$` together
with the subsequent `time.split(':').map(Number)` destructuring: on a
match, return the parsed `(hours, minutes)`. -/
def hhmmOf : List Char → Option (Nat × Nat)
  | [c1, c2, c3, c4, c5] =>
    if ((c1 = '0' ∨ c1 = '1') ∧ isDig c2 ∨ c1 = '2' ∧ 48 ≤ c2.toNat ∧ c2.toNat ≤ 51) ∧
        c3 = ':' ∧ (48 ≤ c4.toNat ∧ c4.toNat ≤ 53) ∧ isDig c5 then
      some (digVal c1 * 10 + digVal c2, digVal c4 * 10 + digVal c5)
    else none
  | _ => none

/-- `match: /^([01]\d|2[0-3]):([0-5]\d)/` of the schedule's `time` field. -/
def matchHHMM (s : String) : Bool :=
  (hhmmOf s.data).isSome

inductive Frequency where
  | daily | weekly | monthly | custom
deriving DecidableEq, Repr

/-- The source's timezone branch: `const offset = 0` ("Calculate timezone
offset in minutes" is left unimplemented), then
`nextRun.setMinutes(nextRun.getMinutes() - offset)`. -/
def timezoneOffsetMinutes (_tz : String) : Nat := 0

def tzAdjust (tz : String) (t : DTime) : DTime :=
  if tz = "UTC" then t
  else { t with minute := t.minute - timezoneOffsetMinutes tz }

/-- Core of `calculateNextRun` (report.model.ts), after the `time` string
has been destructured into `h:mi`.  Mirrors the source statement by
statement:

1. `nextRun = new Date(now); nextRun.setHours(hours, minutes, 0, 0)`;
2. timezone adjustment (a no-op, offset 0);
3. if `nextRun <= now`, advance by the frequency's period — daily
   `+1` day, weekly `+7` days, monthly `setMonth(getMonth() + 1)` and,
   when `dayOfMonth` is truthy, `setDate(min(dayOfMonth, lastDayOfMonth))`
   where `lastDayOfMonth = new Date(y, m + 1, 0).getDate()` is the length
   of the (possibly overflow-shifted) current month; `custom` has no case;
4. for weekly with `dayOfWeek` defined, shift forward by
   `(dayOfWeek - getDay() + 7) % 7` days. -/
def calcNextRunCore (frequency : Frequency) (dayOfWeek dayOfMonth : Option Nat)
    (h mi : Nat) (tz : String) (now : DTime) : DTime :=
  let candidate : DTime :=
    tzAdjust tz { now with hour := h, minute := mi, second := 0 }
  let afterAdvance : DTime :=
    if toKey candidate ≤ toKey now then
      match frequency with
      | .daily => setDays candidate (candidate.day + 1)
      | .weekly => setDays candidate (candidate.day + 7)
      | .monthly =>
        let y' := if candidate.month = 11 then candidate.year + 1 else candidate.year
        let m' := if candidate.month = 11 then 0 else candidate.month + 1
        let moved : DTime :=
          let ymd := normDate y' m' candidate.day
          ⟨ymd.1, ymd.2.1, ymd.2.2, candidate.hour, candidate.minute, candidate.second⟩
        match dayOfMonth with
        | some dm =>
          if dm = 0 then moved
          else
            let lastDayOfMonth := daysInMonth moved.year moved.month
            setDays moved (min dm lastDayOfMonth)
        | none => moved
      | .custom => candidate
    else candidate
  match frequency, dayOfWeek with
  | .weekly, some dW =>
    let currentDay := dowOf afterAdvance
    let daysToAdd := (dW + 7 - currentDay) % 7
    setDays afterAdvance (afterAdvance.day + daysToAdd)
  | _, _ => afterAdvance

/-- `calculateNextRun` of report.model.ts.  A `time` string that fails
the `HH:MM` shape feeds `NaN` into `setHours`, yielding an invalid date:
modelled as `none`. -/
def calculateNextRun (frequency : Frequency) (dayOfWeek dayOfMonth : Option Nat)
    (time : String) (tz : String) (now : DTime) : Option DTime :=
  (hhmmOf time.data).map fun hm =>
    calcNextRunCore frequency dayOfWeek dayOfMonth hm.1 hm.2 tz now

/-! ### Schedule sub-document validation (mongoose schema, report.model.ts)

Per-field validators as the schema declares them:
* `dayOfWeek`: `min: 0, max: 6`, `required` iff `frequency === 'weekly'`;
* `dayOfMonth`: `min: 1, max: 31`, `required` iff `frequency === 'monthly'`;
* `time`: `required` iff a frequency is set, `match` the `HH:MM` regex.
JavaScript numbers may be negative, so the numeric fields carry `Int`. -/

structure ScheduleSpec where
  frequency : Option Frequency
  dayOfWeek : Option Int
  dayOfMonth : Option Int
  time : Option String
  timezone : String
  active : Bool
deriving DecidableEq, Repr

def dayOfWeekFieldOk (s : ScheduleSpec) : Bool :=
  (match s.dayOfWeek with
   | some v => decide (0 ≤ v ∧ v ≤ 6)
   | none => true) &&
  (if s.frequency = some .weekly then s.dayOfWeek.isSome else true)

def dayOfMonthFieldOk (s : ScheduleSpec) : Bool :=
  (match s.dayOfMonth with
   | some v => decide (1 ≤ v ∧ v ≤ 31)
   | none => true) &&
  (if s.frequency = some .monthly then s.dayOfMonth.isSome else true)

def timeFieldOk (s : ScheduleSpec) : Bool :=
  (match s.time with
   | some str => matchHHMM str
   | none => true) &&
  (if s.frequency.isSome then s.time.isSome else true)

/-- The schedule sub-document passes mongoose validation. -/
def validateSchedule (s : ScheduleSpec) : Bool :=
  dayOfWeekFieldOk s && dayOfMonthFieldOk s && timeFieldOk s

/-! ### Message store and thread resolver
(`reportTemplate.model.ts` hooks, controllers in the unnamed source file,
secondary POST route in `attendance.routes.ts`)

Identifiers are opaque naturals; the collection is a partial map from
identifier to message.  `save` of a document runs the `pre('save')` hook,
persists the document, then runs the `post('save')` hook; `updateOne`
writes fields without triggering hooks (mongoose semantics). -/

structure Recipient where
  user : Nat
  read : Bool
  readAt : Option Nat
  deleted : Bool
deriving DecidableEq, Repr

structure Msg where
  id : Nat
  sender : Nat
  recipients : List Recipient
  subject : String
  body : String
  parentMessage : Option Nat
  isThread : Bool
  threadId : Option Nat
  isStarred : Bool
  isPinned : Bool
  isRead : Bool
  deleted : Bool
  isDraft : Bool
deriving DecidableEq, Repr

def Store := Nat → Option Msg

def emptyStore : Store := fun _ => none

def insertMsg (st : Store) (m : Msg) : Store :=
  fun i => if i = m.id then some m else st i

/-- `Message.updateOne({_id: p}, {$set: {isThread: true}})`: no hooks,
and a missing identifier updates nothing. -/
def setParentIsThread (st : Store) (p : Nat) : Store :=
  fun i => if i = p then (st p).map (fun r => { r with isThread := true }) else st i

/-- `messageSchema.pre('save')`: when `parentMessage` is set and
`threadId` unset, resolve the parent; if found, adopt
`parent.threadId || parent._id` and clear `isThread`.  A missing parent
changes nothing. -/
def preSave (st : Store) (m : Msg) : Msg :=
  match m.parentMessage with
  | some p =>
    if m.threadId = none then
      match st p with
      | some parent =>
        { m with threadId := some (parent.threadId.getD parent.id), isThread := false }
      | none => m
    else m
  | none => m

/-- `messageSchema.post('save')`.  The first branch re-saves the document
after denormalising `threadId := _id`; that inner save's pre-hook is a
no-op (`threadId` now set) and its post-hook can only fire the
parent-update branch, which is inlined here. -/
def postSave (st : Store) (m : Msg) : Store :=
  if m.isThread ∧ m.threadId = none then
    let m' := { m with threadId := some m.id }
    let st' := insertMsg st m'
    match m'.parentMessage with
    | some p => setParentIsThread st' p
    | none => st'
  else
    match m.parentMessage with
    | some p => setParentIsThread st p
    | none => st

/-- `document.save()`: pre-hook, persist, post-hook. -/
def saveMsg (st : Store) (m : Msg) : Store :=
  let m1 := preSave st m
  postSave (insertMsg st m1) m1

/-- A freshly constructed message with schema defaults
(`isThread: false`, no `threadId`, nothing starred/pinned/read). -/
def newMessage (id sender : Nat) (recipients : List Recipient)
    (subject body : String) (parentMessage : Option Nat) : Msg :=
  { id := id, sender := sender, recipients := recipients, subject := subject,
    body := body, parentMessage := parentMessage, isThread := false,
    threadId := none, isStarred := false, isPinned := false, isRead := false,
    deleted := false, isDraft := false }

/-- Stores reachable from the empty collection by saving freshly
constructed messages through the model's hooks. -/
inductive Reaches : Store → Prop where
  | empty : Reaches emptyStore
  | save (st : Store) (id sender : Nat) (recipients : List Recipient)
      (subject body : String) (parentMessage : Option Nat) :
      Reaches st → st id = none →
      Reaches (saveMsg st (newMessage id sender recipients subject body parentMessage))

/-! ### `updateMessage` controller (unnamed controller file)

The request body is an open JavaScript object; we embed it as a list of
field writes (`Object.assign` applies them left to right, so a later
entry for the same key wins).  The controller filters the body through
`allowedUpdates` before assigning. -/

inductive MKey where
  | sender | parentMessage | threadId | isThread
  | isStarred | isPinned | isRead | deleted
  | subject | body | recipients | isDraft | read
deriving DecidableEq, Repr

inductive MUpdate where
  | setSender (v : Nat)
  | setParentMessage (v : Option Nat)
  | setThreadId (v : Option Nat)
  | setIsThread (v : Bool)
  | setIsStarred (v : Bool)
  | setIsPinned (v : Bool)
  | setIsRead (v : Bool)
  | setDeleted (v : Bool)
  | setSubject (v : String)
  | setBody (v : String)
  | setRecipients (v : List Recipient)
  | setIsDraft (v : Bool)
  | setRead (v : Bool)
deriving DecidableEq, Repr

def keyOf : MUpdate → MKey
  | .setSender _ => .sender
  | .setParentMessage _ => .parentMessage
  | .setThreadId _ => .threadId
  | .setIsThread _ => .isThread
  | .setIsStarred _ => .isStarred
  | .setIsPinned _ => .isPinned
  | .setIsRead _ => .isRead
  | .setDeleted _ => .deleted
  | .setSubject _ => .subject
  | .setBody _ => .body
  | .setRecipients _ => .recipients
  | .setIsDraft _ => .isDraft
  | .setRead _ => .read

/-- The controller's whitelist. -/
def allowedUpdates : List MKey :=
  [.isStarred, .isPinned, .isRead, .deleted, .subject, .body, .recipients, .isDraft]

/-- One `Object.assign` field write.  `read` is not a schema path of the
message document, so assigning it changes no persisted field. -/
def applyUpd (m : Msg) : MUpdate → Msg
  | .setSender v => { m with sender := v }
  | .setParentMessage v => { m with parentMessage := v }
  | .setThreadId v => { m with threadId := v }
  | .setIsThread v => { m with isThread := v }
  | .setIsStarred v => { m with isStarred := v }
  | .setIsPinned v => { m with isPinned := v }
  | .setIsRead v => { m with isRead := v }
  | .setDeleted v => { m with deleted := v }
  | .setSubject v => { m with subject := v }
  | .setBody v => { m with body := v }
  | .setRecipients v => { m with recipients := v }
  | .setIsDraft v => { m with isDraft := v }
  | .setRead _ => m

def applyUpdates (m : Msg) (l : List MUpdate) : Msg :=
  l.foldl applyUpd m

/-- The recipient branch of `updateMessage`: rewrite this recipient's
`read` / `readAt` / `deleted` entries (the `'read' in updatesToApply` and
`'deleted' in updatesToApply` checks of the source; an object body keeps
one value per key, embedded as the last list entry for that key), then
save the message. -/
def recipientUpdate (st : Store) (m : Msg) (idx : Nat)
    (toApply : List MUpdate) (nowT : Nat) : Store :=
  match m.recipients[idx]? with
  | none => st
  | some r =>
    let readUpd := (toApply.filterMap fun u =>
      match u with | .setRead b => some b | _ => none).getLast?
    let delUpd := (toApply.filterMap fun u =>
      match u with | .setDeleted b => some b | _ => none).getLast?
    let r1 := match readUpd with
      | some b => { r with read := b, readAt := if b then some nowT else none }
      | none => r
    let r2 := match delUpd with
      | some b => { r1 with deleted := b }
      | none => r1
    saveMsg st { m with recipients := m.recipients.set idx r2 }

/-- `PUT /api/messages/:id`.  Filter the body by the whitelist; reject an
empty result (400); look the message up gated by the sender-or-recipient
access predicate; the sender path assigns the filtered fields and saves
(running the hooks), the recipient path rewrites that recipient's
`read` / `readAt` / `deleted` entries and saves.  `nowT` stands for
`new Date()` used for `readAt`. -/
def updateMessage (st : Store) (userId mid : Nat) (updates : List MUpdate)
    (nowT : Nat) : Store :=
  let toApply := updates.filter (fun u => allowedUpdates.contains (keyOf u))
  if toApply.isEmpty then st
  else
    match st mid with
    | none => st
    | some m =>
      if m.sender = userId ∨ m.recipients.any (fun r => r.user = userId) then
        if m.sender = userId then
          saveMsg st (applyUpdates m toApply)
        else
          match m.recipients.findIdx? (fun r => r.user = userId) with
          | none => st
          | some idx => recipientUpdate st m idx toApply nowT
      else st

/-! ### `sendMessage` controller (unnamed controller file)

Computes a `threadId` up front — a freshly generated ObjectId (modelled
by the `freshTid` parameter) for a new conversation, or the parent's
resolved thread for a reply, aborting with 404 when the parent is not
visible to the sender.  The saved message carries `threadId` but no
`parentMessage` field. -/
def sendMessage (st : Store) (id senderId : Nat) (recipients : List Nat)
    (subject body : String) (isDraft : Bool) (parentMessageId : Option Nat)
    (freshTid : Nat) : Store :=
  if ¬isDraft ∧ (recipients = [] ∨ subject = "" ∨ body = "") then st
  else
    let resolved : Option Nat :=
      match parentMessageId with
      | some pid =>
        match st pid with
        | some parent =>
          if parent.sender = senderId ∨
              parent.recipients.any (fun r => r.user = senderId ∧ r.deleted = false) then
            some (parent.threadId.getD parent.id)
          else none
        | none => none
      | none => some freshTid
    match resolved with
    | none => st
    | some tid =>
      let recipientsList := if isDraft then [] else recipients.map fun u =>
        { user := u, read := false, readAt := none, deleted := false : Recipient }
      saveMsg st
        { id := id, sender := senderId, recipients := recipientsList,
          subject := subject, body := body, parentMessage := none,
          isThread := false, threadId := some tid, isStarred := false,
          isPinned := false, isRead := isDraft, deleted := false,
          isDraft := isDraft }

/-! ### Secondary `POST /` message route (attendance.routes.ts)

Builds the document directly with `isThread: !!parentMessageId` and
`threadId: parentMessageId`, leaving `parentMessage` unset, then saves. -/
def attendancePostMessage (st : Store) (id sender : Nat) (recipients : List Nat)
    (subject body : String) (parentMessageId : Option Nat) (isDraft : Bool) : Store :=
  if ¬isDraft ∧ recipients = [] then st
  else
    saveMsg st
      { id := id, sender := sender,
        recipients := recipients.map fun u =>
          { user := u, read := false, readAt := none, deleted := false : Recipient },
        subject := subject, body := body, parentMessage := none,
        isThread := parentMessageId.isSome, threadId := parentMessageId,
        isStarred := false, isPinned := false, isRead := false,
        deleted := false, isDraft := isDraft }

/-! ### Calendar lemmas -/

theorem daysInMonth_bounds (y m : Nat) : 28 ≤ daysInMonth y m ∧ daysInMonth y m ≤ 31 := by
  unfold daysInMonth
  split <;> first | omega | (split <;> omega)

theorem daysBeforeYear_succ (y : Nat) :
    daysBeforeYear (y + 1) = daysBeforeYear y + daysInYear y := by
  unfold daysBeforeYear leapsBefore daysInYear isLeap
  split <;> rename_i h <;>
    simp only [Bool.and_eq_true, Bool.or_eq_true, beq_iff_eq, bne_iff_ne, ne_eq,
      Bool.not_eq_true, decide_eq_true_eq] at h <;>
    omega

theorem daysBeforeMonth_twelve (y : Nat) : daysBeforeMonth y 12 = daysInYear y := by
  have h : daysBeforeMonth y 12 =
      0 + 31 + daysInMonth y 1 + 31 + 30 + 31 + 30 + 31 + 31 + 30 + 31 + 30 + 31 := rfl
  have h1 : daysInMonth y 1 = if isLeap y then 29 else 28 := rfl
  rw [h, h1]
  unfold daysInYear
  split <;> omega

/-- Day-overflow normalisation, with enough fuel, lands on an in-range
civil date, preserves the linear day count, and never moves backwards:
either it leaves the triple untouched or it strictly advances the
year/month. -/
theorem normDateAux_spec (fuel : Nat) :
    ∀ y m d, d ≤ fuel → 1 ≤ d → m ≤ 11 →
    (normDateAux fuel y m d).2.1 ≤ 11 ∧
    1 ≤ (normDateAux fuel y m d).2.2 ∧
    (normDateAux fuel y m d).2.2 ≤
      daysInMonth (normDateAux fuel y m d).1 (normDateAux fuel y m d).2.1 ∧
    dayNumber (normDateAux fuel y m d).1 (normDateAux fuel y m d).2.1
      (normDateAux fuel y m d).2.2 = dayNumber y m d ∧
    (normDateAux fuel y m d = (y, m, d) ∨
      y < (normDateAux fuel y m d).1 ∨
      (y = (normDateAux fuel y m d).1 ∧ m < (normDateAux fuel y m d).2.1)) := by
  induction fuel with
  | zero =>
    intro y m d hfuel hd hm
    omega
  | succ fuel ih =>
    intro y m d hfuel hd hm
    have hb := daysInMonth_bounds y m
    by_cases hle : d ≤ daysInMonth y m
    · have he : normDateAux (fuel + 1) y m d = (y, m, d) := by
        simp [normDateAux, hle]
      rw [he]
      exact ⟨hm, hd, hle, rfl, Or.inl rfl⟩
    · by_cases hm11 : m = 11
      · subst hm11
        have h31 : daysInMonth y 11 = 31 := rfl
        have he : normDateAux (fuel + 1) y 11 d =
            normDateAux fuel (y + 1) 0 (d - daysInMonth y 11) := by
          simp [normDateAux, hle]
        rw [he]
        obtain ⟨r1, r2, r3, r4, r5⟩ :=
          ih (y + 1) 0 (d - daysInMonth y 11) (by omega) (by omega) (by omega)
        refine ⟨r1, r2, r3, ?_, ?_⟩
        · rw [r4]
          have hy := daysBeforeYear_succ y
          have h12 := daysBeforeMonth_twelve y
          have h11 : daysBeforeMonth y 12 = daysBeforeMonth y 11 + daysInMonth y 11 := rfl
          have h0 : daysBeforeMonth (y + 1) 0 = 0 := rfl
          have hyear : 365 ≤ daysInYear y := by unfold daysInYear; split <;> omega
          unfold dayNumber
          omega
        · rcases r5 with h | h | h
          · right; left
            have h1 : (normDateAux fuel (y + 1) 0 (d - daysInMonth y 11)).1 = y + 1 := by
              rw [h]
            omega
          · right; left; omega
          · right; left; omega
      · have hm10 : m + 1 ≤ 11 := by omega
        have he : normDateAux (fuel + 1) y m d =
            normDateAux fuel y (m + 1) (d - daysInMonth y m) := by
          simp [normDateAux, hle, hm11]
        rw [he]
        obtain ⟨r1, r2, r3, r4, r5⟩ :=
          ih y (m + 1) (d - daysInMonth y m) (by omega) (by omega) hm10
        refine ⟨r1, r2, r3, ?_, ?_⟩
        · rw [r4]
          have hstep : daysBeforeMonth y (m + 1) = daysBeforeMonth y m + daysInMonth y m := rfl
          unfold dayNumber
          omega
        · rcases r5 with h | h | h
          · right; right
            have h1 : (normDateAux fuel y (m + 1) (d - daysInMonth y m)).1 = y := by
              rw [h]
            have h2 : (normDateAux fuel y (m + 1) (d - daysInMonth y m)).2.1 = m + 1 := by
              rw [h]
            omega
          · right; left; omega
          · right; right; omega

theorem setDays_spec (t : DTime) (d : Nat) (hd : 1 ≤ d) (hm : t.month ≤ 11) :
    (setDays t d).month ≤ 11 ∧ 1 ≤ (setDays t d).day ∧
    (setDays t d).day ≤ daysInMonth (setDays t d).year (setDays t d).month ∧
    dayNumber (setDays t d).year (setDays t d).month (setDays t d).day
      = dayNumber t.year t.month d ∧
    (((setDays t d).year = t.year ∧ (setDays t d).month = t.month ∧
        (setDays t d).day = d) ∨
      t.year < (setDays t d).year ∨
      (t.year = (setDays t d).year ∧ t.month < (setDays t d).month)) ∧
    (setDays t d).hour = t.hour ∧ (setDays t d).minute = t.minute ∧
    (setDays t d).second = t.second := by
  obtain ⟨r1, r2, r3, r4, r5⟩ := normDateAux_spec d t.year t.month d le_rfl hd hm
  refine ⟨r1, r2, r3, r4, ?_, rfl, rfl, rfl⟩
  rcases r5 with h | h | h
  · left; exact ⟨by rw [show (setDays t d).year = (normDateAux d t.year t.month d).1 from rfl, h],
      by rw [show (setDays t d).month = (normDateAux d t.year t.month d).2.1 from rfl, h],
      by rw [show (setDays t d).day = (normDateAux d t.year t.month d).2.2 from rfl, h]⟩
  · right; left; exact h
  · right; right; exact h

theorem dayNumber_add (y m d k : Nat) (hd : 1 ≤ d) :
    dayNumber y m (d + k) = dayNumber y m d + k := by
  unfold dayNumber; omega

theorem dowOf_setDays (t : DTime) (k : Nat) (hm : t.month ≤ 11) (hd : 1 ≤ t.day) :
    dowOf (setDays t (t.day + k)) = (dowOf t + k) % 7 := by
  obtain ⟨_, _, _, h4, _⟩ := setDays_spec t (t.day + k) (by omega) hm
  unfold dowOf
  rw [h4, dayNumber_add t.year t.month t.day k hd]
  omega

/-- For datetimes whose civil dates compare strictly (lexicographically)
the key also compares strictly, whatever the time fields, as long as the
smaller one is in range and the larger one's day is at least 1. -/
theorem toKey_lt_of_date_lt (b a : DTime) (hb : ValidDT b) (had : 1 ≤ a.day)
    (h : b.year < a.year ∨ (b.year = a.year ∧
      (b.month < a.month ∨ (b.month = a.month ∧ b.day < a.day)))) :
    toKey b < toKey a := by
  obtain ⟨h1, h2, h3, h4, h5, h6⟩ := hb
  have h31 : b.day ≤ 31 := le_trans h3 (daysInMonth_bounds _ _).2
  unfold toKey
  omega

theorem tzAdjust_eq (tz : String) (t : DTime) : tzAdjust tz t = t := by
  unfold tzAdjust timezoneOffsetMinutes
  split
  · rfl
  · show ({ t with minute := t.minute - 0 } : DTime) = t
    simp

/-- The validated `HH:MM` parse yields in-range hours and minutes. -/
theorem hhmm_bounds (l : List Char) (h mi : Nat) (hp : hhmmOf l = some (h, mi)) :
    h ≤ 23 ∧ mi ≤ 59 := by
  unfold hhmmOf at hp
  split at hp
  · split at hp
    · rename_i c1 c2 c3 c4 c5 hcond
      obtain ⟨hc12, _, hc4, hc5⟩ := hcond
      simp only [Option.some.injEq, Prod.mk.injEq] at hp
      obtain ⟨hph, hpm⟩ := hp
      unfold isDig at hc5
      simp only [Bool.and_eq_true, decide_eq_true_eq] at hc5
      unfold digVal at hph hpm
      constructor
      · rcases hc12 with ⟨hc1, hc2⟩ | ⟨hc1, hc2, hc2'⟩
        · unfold isDig at hc2
          simp only [Bool.and_eq_true, decide_eq_true_eq] at hc2
          rcases hc1 with hc1 | hc1
          · subst hc1
            rw [show ('0' : Char).toNat = 48 from rfl] at hph
            omega
          · subst hc1
            rw [show ('1' : Char).toNat = 49 from rfl] at hph
            omega
        · subst hc1
          rw [show ('2' : Char).toNat = 50 from rfl] at hph
          omega
      · omega
    · exact absurd hp (by simp)
  · exact absurd hp (by simp)

/-- `new Date(now); setHours(h, mi, 0, 0)`: today at the given time. -/
def atTime (now : DTime) (h mi : Nat) : DTime :=
  { now with hour := h, minute := mi, second := 0 }

theorem atTime_year (now : DTime) (h mi : Nat) : (atTime now h mi).year = now.year := rfl

theorem atTime_month (now : DTime) (h mi : Nat) : (atTime now h mi).month = now.month := rfl

theorem atTime_day (now : DTime) (h mi : Nat) : (atTime now h mi).day = now.day := rfl

/-- The instant 24 hours after `t`: the next calendar day at the same
time of day (UTC, so exactly 86400 seconds later). -/
def plus24h (t : DTime) : DTime :=
  setDays t (t.day + 1)

theorem core_daily_eq (dW dM : Option Nat) (h mi : Nat) (tz : String) (now : DTime) :
    calcNextRunCore .daily dW dM h mi tz now =
      if toKey (atTime now h mi) ≤ toKey now then
        setDays (atTime now h mi) (now.day + 1)
      else atTime now h mi := by
  unfold calcNextRunCore atTime
  rw [tzAdjust_eq]

theorem core_custom_eq (dW dM : Option Nat) (h mi : Nat) (tz : String) (now : DTime) :
    calcNextRunCore .custom dW dM h mi tz now = atTime now h mi := by
  unfold calcNextRunCore atTime
  rw [tzAdjust_eq]
  by_cases hc : toKey { now with hour := h, minute := mi, second := 0 } ≤ toKey now <;>
    simp [hc]

theorem core_weekly_none_eq (dM : Option Nat) (h mi : Nat) (tz : String) (now : DTime) :
    calcNextRunCore .weekly none dM h mi tz now =
      if toKey (atTime now h mi) ≤ toKey now then
        setDays (atTime now h mi) (now.day + 7)
      else atTime now h mi := by
  unfold calcNextRunCore atTime
  rw [tzAdjust_eq]

theorem core_weekly_some_eq (w : Nat) (dM : Option Nat) (h mi : Nat) (tz : String) (now : DTime) :
    calcNextRunCore .weekly (some w) dM h mi tz now =
      (let base := if toKey (atTime now h mi) ≤ toKey now then
          setDays (atTime now h mi) (now.day + 7)
        else atTime now h mi
      setDays base (base.day + (w + 7 - dowOf base) % 7)) := by
  unfold calcNextRunCore atTime
  rw [tzAdjust_eq]

/-- The civil date the monthly advance moves to before any clamping:
`setMonth(getMonth() + 1)` on today's date. -/
def monthMoved (now : DTime) : Nat × Nat × Nat :=
  normDate (if now.month = 11 then now.year + 1 else now.year)
    (if now.month = 11 then 0 else now.month + 1) now.day

theorem core_monthly_eq (dW dM : Option Nat) (h mi : Nat) (tz : String) (now : DTime) :
    calcNextRunCore .monthly dW dM h mi tz now =
      (if toKey (atTime now h mi) ≤ toKey now then
        let moved : DTime := ⟨(monthMoved now).1, (monthMoved now).2.1,
          (monthMoved now).2.2, h, mi, 0⟩
        match dM with
        | some dm =>
          if dm = 0 then moved
          else setDays moved (min dm (daysInMonth moved.year moved.month))
        | none => moved
      else atTime now h mi) := by
  unfold calcNextRunCore atTime monthMoved
  rw [tzAdjust_eq]

theorem future_daily (dW dM : Option Nat) (h mi : Nat) (tz : String) (now : DTime)
    (hv : ValidDT now) :
    toKey now < toKey (calcNextRunCore .daily dW dM h mi tz now) := by
  obtain ⟨v1, v2, v3, v4, v5, v6⟩ := hv
  rw [core_daily_eq]
  by_cases hc : toKey (atTime now h mi) ≤ toKey now
  · rw [if_pos hc]
    obtain ⟨s1, s2, s3, s4, s5, s6, s7, s8⟩ :=
      setDays_spec (atTime now h mi) (now.day + 1) (by omega) v1
    apply toKey_lt_of_date_lt now _ ⟨v1, v2, v3, v4, v5, v6⟩ s2
    simp only [atTime_year, atTime_month, atTime_day] at s5
    omega
  · rw [if_neg hc]
    omega

theorem future_weekly (dW dM : Option Nat) (h mi : Nat) (tz : String) (now : DTime)
    (hv : ValidDT now) :
    toKey now < toKey (calcNextRunCore .weekly dW dM h mi tz now) := by
  obtain ⟨v1, v2, v3, v4, v5, v6⟩ := hv
  have hnd31 : now.day ≤ 31 := le_trans v3 (daysInMonth_bounds _ _).2
  cases dW with
  | none =>
    rw [core_weekly_none_eq]
    by_cases hc : toKey (atTime now h mi) ≤ toKey now
    · rw [if_pos hc]
      obtain ⟨s1, s2, s3, s4, s5, s6, s7, s8⟩ :=
        setDays_spec (atTime now h mi) (now.day + 7) (by omega) v1
      apply toKey_lt_of_date_lt now _ ⟨v1, v2, v3, v4, v5, v6⟩ s2
      simp only [atTime_year, atTime_month, atTime_day] at s5
      omega
    · rw [if_neg hc]
      omega
  | some w =>
    rw [core_weekly_some_eq]
    by_cases hc : toKey (atTime now h mi) ≤ toKey now
    · rw [if_pos hc]
      show toKey now < toKey (setDays (setDays (atTime now h mi) (now.day + 7))
        ((setDays (atTime now h mi) (now.day + 7)).day +
          (w + 7 - dowOf (setDays (atTime now h mi) (now.day + 7))) % 7))
      set b := setDays (atTime now h mi) (now.day + 7) with hb_def
      obtain ⟨b1, b2, b3, b4, b5, b6, b7, b8⟩ :=
        setDays_spec (atTime now h mi) (now.day + 7) (by omega) v1
      rw [← hb_def] at b1 b2 b3 b4 b5 b6 b7 b8
      simp only [atTime_year, atTime_month, atTime_day] at b5
      set k := (w + 7 - dowOf b) % 7 with hk_def
      obtain ⟨r1, r2, r3, r4, r5, r6, r7, r8⟩ :=
        setDays_spec b (b.day + k) (by omega) b1
      unfold toKey
      omega
    · rw [if_neg hc]
      show toKey now < toKey (setDays (atTime now h mi)
        ((atTime now h mi).day + (w + 7 - dowOf (atTime now h mi)) % 7))
      set c := atTime now h mi with hc_def
      have hcy : c.year = now.year := by rw [hc_def]; rfl
      have hcm : c.month = now.month := by rw [hc_def]; rfl
      have hcd : c.day = now.day := by rw [hc_def]; rfl
      have hch : c.hour = h := by rw [hc_def]; rfl
      have hcmi : c.minute = mi := by rw [hc_def]; rfl
      have hcs : c.second = 0 := by rw [hc_def]; rfl
      set k := (w + 7 - dowOf c) % 7 with hk_def
      obtain ⟨r1, r2, r3, r4, r5, r6, r7, r8⟩ :=
        setDays_spec c (c.day + k) (by omega) (by omega)
      unfold toKey at hc ⊢
      omega

/-- The civil date `setMonth(getMonth() + 1)` lands on is in range,
and strictly after today's year/month. -/
theorem monthMoved_spec (now : DTime) (hv : ValidDT now) :
    (monthMoved now).2.1 ≤ 11 ∧ 1 ≤ (monthMoved now).2.2 ∧
    (monthMoved now).2.2 ≤ daysInMonth (monthMoved now).1 (monthMoved now).2.1 ∧
    (now.year < (monthMoved now).1 ∨
      ((monthMoved now).1 = now.year ∧ now.month < (monthMoved now).2.1)) := by
  obtain ⟨v1, v2, _, _, _, _⟩ := hv
  by_cases hm11 : now.month = 11
  · have hmv : monthMoved now = normDateAux now.day (now.year + 1) 0 now.day := by
      unfold monthMoved normDate
      rw [if_pos hm11, if_pos hm11]
    obtain ⟨r1, r2, r3, _, r5⟩ :=
      normDateAux_spec now.day (now.year + 1) 0 now.day le_rfl v2 (by omega)
    rw [hmv]
    refine ⟨r1, r2, r3, ?_⟩
    rcases r5 with hh | hh | hh
    · have h1 : (normDateAux now.day (now.year + 1) 0 now.day).1 = now.year + 1 := by
        rw [hh]
      left; omega
    · left; omega
    · left; omega
  · have hmv : monthMoved now = normDateAux now.day now.year (now.month + 1) now.day := by
      unfold monthMoved normDate
      rw [if_neg hm11, if_neg hm11]
    obtain ⟨r1, r2, r3, _, r5⟩ :=
      normDateAux_spec now.day now.year (now.month + 1) now.day le_rfl v2 (by omega)
    rw [hmv]
    refine ⟨r1, r2, r3, ?_⟩
    rcases r5 with hh | hh | hh
    · have h1 : (normDateAux now.day now.year (now.month + 1) now.day).1 = now.year := by
        rw [hh]
      have h2 : (normDateAux now.day now.year (now.month + 1) now.day).2.1 = now.month + 1 := by
        rw [hh]
      right; omega
    · left; omega
    · right; omega

theorem future_monthly (dW dM : Option Nat) (h mi : Nat) (tz : String) (now : DTime)
    (hv : ValidDT now) :
    toKey now < toKey (calcNextRunCore .monthly dW dM h mi tz now) := by
  obtain ⟨m1, m2, m3, m4⟩ := monthMoved_spec now hv
  obtain ⟨v1, v2, v3, v4, v5, v6⟩ := hv
  have hnd31 : now.day ≤ 31 := le_trans v3 (daysInMonth_bounds _ _).2
  rw [core_monthly_eq]
  by_cases hc : toKey (atTime now h mi) ≤ toKey now
  case neg => rw [if_neg hc]; omega
  rw [if_pos hc]
  rcases dM with _ | dm
  · show toKey now <
      toKey ⟨(monthMoved now).1, (monthMoved now).2.1, (monthMoved now).2.2, h, mi, 0⟩
    show toKey now < (monthMoved now).1 * 33177600 + (monthMoved now).2.1 * 2764800 +
      (monthMoved now).2.2 * 86400 + h * 3600 + mi * 60 + 0
    unfold toKey
    omega
  · by_cases hdm0 : dm = 0
    · show toKey now < toKey (if dm = 0 then
        (⟨(monthMoved now).1, (monthMoved now).2.1, (monthMoved now).2.2, h, mi, 0⟩ : DTime)
        else setDays ⟨(monthMoved now).1, (monthMoved now).2.1, (monthMoved now).2.2, h, mi, 0⟩
          (min dm (daysInMonth (monthMoved now).1 (monthMoved now).2.1)))
      rw [if_pos hdm0]
      show toKey now < (monthMoved now).1 * 33177600 + (monthMoved now).2.1 * 2764800 +
        (monthMoved now).2.2 * 86400 + h * 3600 + mi * 60 + 0
      unfold toKey
      omega
    · show toKey now < toKey (if dm = 0 then
        (⟨(monthMoved now).1, (monthMoved now).2.1, (monthMoved now).2.2, h, mi, 0⟩ : DTime)
        else setDays ⟨(monthMoved now).1, (monthMoved now).2.1, (monthMoved now).2.2, h, mi, 0⟩
          (min dm (daysInMonth (monthMoved now).1 (monthMoved now).2.1)))
      rw [if_neg hdm0]
      have hL28 : 28 ≤ daysInMonth (monthMoved now).1 (monthMoved now).2.1 :=
        (daysInMonth_bounds _ _).1
      have hmin1 : 1 ≤ min dm (daysInMonth (monthMoved now).1 (monthMoved now).2.1) :=
        le_min (by omega) (by omega)
      obtain ⟨r1, r2, r3, r4, r5, r6, r7, r8⟩ :=
        setDays_spec ⟨(monthMoved now).1, (monthMoved now).2.1, (monthMoved now).2.2, h, mi, 0⟩
          (min dm (daysInMonth (monthMoved now).1 (monthMoved now).2.1)) hmin1 m1
      have e1 : (⟨(monthMoved now).1, (monthMoved now).2.1, (monthMoved now).2.2, h, mi, 0⟩ :
          DTime).year = (monthMoved now).1 := rfl
      have e2 : (⟨(monthMoved now).1, (monthMoved now).2.1, (monthMoved now).2.2, h, mi, 0⟩ :
          DTime).month = (monthMoved now).2.1 := rfl
      have e3 : (⟨(monthMoved now).1, (monthMoved now).2.1, (monthMoved now).2.2, h, mi, 0⟩ :
          DTime).day = (monthMoved now).2.2 := rfl
      have e4 : (⟨(monthMoved now).1, (monthMoved now).2.1, (monthMoved now).2.2, h, mi, 0⟩ :
          DTime).hour = h := rfl
      have e5 : (⟨(monthMoved now).1, (monthMoved now).2.1, (monthMoved now).2.2, h, mi, 0⟩ :
          DTime).minute = mi := rfl
      have e6 : (⟨(monthMoved now).1, (monthMoved now).2.1, (monthMoved now).2.2, h, mi, 0⟩ :
          DTime).second = 0 := rfl
      simp only [e1, e2, e3, e4, e5, e6] at r4 r5 r6 r7 r8
      unfold toKey
      omega

theorem atTime_hour (now : DTime) (h mi : Nat) : (atTime now h mi).hour = h := rfl

theorem atTime_minute (now : DTime) (h mi : Nat) : (atTime now h mi).minute = mi := rfl

theorem atTime_second (now : DTime) (h mi : Nat) : (atTime now h mi).second = 0 := rfl

/-- When the requested day is within the month, `setDate` needs no
normalisation at all. -/
theorem normDateAux_exact (fuel y m d : Nat) (hle : d ≤ daysInMonth y m) :
    normDateAux fuel y m d = (y, m, d) := by
  cases fuel with
  | zero => rfl
  | succ fuel => simp [normDateAux, hle]

/-- The computed next run always carries the configured time of day
(hours and minutes as parsed, seconds zeroed). -/
theorem core_fields (freq : Frequency) (dW dM : Option Nat) (h mi : Nat)
    (tz : String) (now : DTime) :
    (calcNextRunCore freq dW dM h mi tz now).hour = h ∧
    (calcNextRunCore freq dW dM h mi tz now).minute = mi ∧
    (calcNextRunCore freq dW dM h mi tz now).second = 0 := by
  cases freq with
  | daily =>
    rw [core_daily_eq]
    split <;> exact ⟨rfl, rfl, rfl⟩
  | weekly =>
    cases dW with
    | none =>
      rw [core_weekly_none_eq]
      split <;> exact ⟨rfl, rfl, rfl⟩
    | some w =>
      rw [core_weekly_some_eq]
      by_cases hc : toKey (atTime now h mi) ≤ toKey now <;>
        simp only [if_pos, if_neg, hc, if_true, if_false] <;>
        exact ⟨rfl, rfl, rfl⟩
  | monthly =>
    rw [core_monthly_eq]
    by_cases hc : toKey (atTime now h mi) ≤ toKey now
    · simp only [hc, if_true]
      rcases dM with _ | dm
      · exact ⟨rfl, rfl, rfl⟩
      · by_cases hdm0 : dm = 0 <;> simp [hdm0, setDays]
    · simp only [hc, if_false]
      exact ⟨rfl, rfl, rfl⟩
  | custom =>
    rw [core_custom_eq]
    exact ⟨rfl, rfl, rfl⟩

/-- The weekly alignment step lands exactly on the requested weekday. -/
theorem weekly_dow (w : Nat) (dM : Option Nat) (h mi : Nat) (tz : String)
    (now : DTime) (hv : ValidDT now) (hw : w ≤ 6) :
    dowOf (calcNextRunCore .weekly (some w) dM h mi tz now) = w := by
  obtain ⟨v1, v2, v3, v4, v5, v6⟩ := hv
  rw [core_weekly_some_eq]
  by_cases hc : toKey (atTime now h mi) ≤ toKey now
  · simp only [hc, if_true]
    obtain ⟨b1, b2, _, _, _, _, _, _⟩ :=
      setDays_spec (atTime now h mi) (now.day + 7) (by omega) v1
    rw [dowOf_setDays (setDays (atTime now h mi) (now.day + 7)) _ b1 b2]
    have hdb : dowOf (setDays (atTime now h mi) (now.day + 7)) < 7 := by
      unfold dowOf; omega
    omega
  · simp only [hc, if_false]
    have hm : (atTime now h mi).month ≤ 11 := by rw [atTime_month]; omega
    have hd : 1 ≤ (atTime now h mi).day := by rw [atTime_day]; omega
    rw [dowOf_setDays (atTime now h mi) _ hm hd]
    have hdb : dowOf (atTime now h mi) < 7 := by
      unfold dowOf; omega
    omega

/-- The daily next run is never more than 24 hours away. -/
theorem daily_le_plus24h (dW dM : Option Nat) (h mi : Nat) (tz : String) (now : DTime)
    (hv : ValidDT now) (hh : h ≤ 23) (hmi : mi ≤ 59) :
    toKey (calcNextRunCore .daily dW dM h mi tz now) ≤ toKey (plus24h now) := by
  obtain ⟨v1, v2, v3, v4, v5, v6⟩ := hv
  rw [core_daily_eq]
  by_cases hc : toKey (atTime now h mi) ≤ toKey now
  · rw [if_pos hc]
    -- the advanced candidate and now + 24h share the same civil date;
    -- the comparison reduces to the time fields, settled by `hc`
    have hy : (setDays (atTime now h mi) (now.day + 1)).year = (plus24h now).year := rfl
    have hm : (setDays (atTime now h mi) (now.day + 1)).month = (plus24h now).month := rfl
    have hd : (setDays (atTime now h mi) (now.day + 1)).day = (plus24h now).day := rfl
    have hfh : (setDays (atTime now h mi) (now.day + 1)).hour = h := rfl
    have hfm : (setDays (atTime now h mi) (now.day + 1)).minute = mi := rfl
    have hfs : (setDays (atTime now h mi) (now.day + 1)).second = 0 := rfl
    have hph : (plus24h now).hour = now.hour := rfl
    have hpm : (plus24h now).minute = now.minute := rfl
    have hps : (plus24h now).second = now.second := rfl
    unfold toKey at hc ⊢
    simp only [atTime_year, atTime_month, atTime_day, atTime_hour, atTime_minute,
      atTime_second] at hc
    omega
  · rw [if_neg hc]
    obtain ⟨s1, s2, s3, s4, s5, s6, s7, s8⟩ := setDays_spec now (now.day + 1) (by omega) v1
    apply le_of_lt
    apply toKey_lt_of_date_lt (atTime now h mi) (plus24h now)
      ⟨by rw [atTime_month]; omega, by rw [atTime_day]; omega,
        by rw [atTime_day, atTime_month]; exact v3, by rw [atTime_hour]; omega,
        by rw [atTime_minute]; omega, by rw [atTime_second]; omega⟩ s2
    simp only [atTime_year, atTime_month, atTime_day]
    have hpy : (plus24h now).year = (setDays now (now.day + 1)).year := rfl
    have hpm : (plus24h now).month = (setDays now (now.day + 1)).month := rfl
    have hpd : (plus24h now).day = (setDays now (now.day + 1)).day := rfl
    omega

/-- With the advance branch taken, the monthly run with a nonzero
`dayOfMonth` evaluates to the moved month clamped to
`min(dayOfMonth, lastDayOfMonth)`. -/
theorem monthly_clamp_eval (dW : Option Nat) (dm h mi : Nat) (tz : String) (now : DTime)
    (hdm0 : dm ≠ 0)
    (hc : toKey (atTime now h mi) ≤ toKey now) :
    calcNextRunCore .monthly dW (some dm) h mi tz now =
      ⟨(monthMoved now).1, (monthMoved now).2.1,
        min dm (daysInMonth (monthMoved now).1 (monthMoved now).2.1), h, mi, 0⟩ := by
  rw [core_monthly_eq]
  simp only [hc, if_true]
  show (if dm = 0 then
      (⟨(monthMoved now).1, (monthMoved now).2.1, (monthMoved now).2.2, h, mi, 0⟩ : DTime)
    else setDays ⟨(monthMoved now).1, (monthMoved now).2.1, (monthMoved now).2.2, h, mi, 0⟩
      (min dm (daysInMonth (monthMoved now).1 (monthMoved now).2.1))) = _
  rw [if_neg hdm0]
  have hmin : min dm (daysInMonth (monthMoved now).1 (monthMoved now).2.1) ≤
      daysInMonth (monthMoved now).1 (monthMoved now).2.1 := min_le_right _ _
  unfold setDays normDate
  rw [show (⟨(monthMoved now).1, (monthMoved now).2.1, (monthMoved now).2.2, h, mi, 0⟩ :
      DTime).year = (monthMoved now).1 from rfl,
    show (⟨(monthMoved now).1, (monthMoved now).2.1, (monthMoved now).2.2, h, mi, 0⟩ :
      DTime).month = (monthMoved now).2.1 from rfl,
    normDateAux_exact _ _ _ _ hmin]

theorem calculateNextRun_eq_some (freq : Frequency) (dW dM : Option Nat)
    (time tz : String) (now : DTime) (h mi : Nat)
    (hp : hhmmOf time.data = some (h, mi)) :
    calculateNextRun freq dW dM time tz now =
      some (calcNextRunCore freq dW dM h mi tz now) := by
  unfold calculateNextRun
  rw [hp]
  rfl

/-- Claim C1, counterexample: with frequency `custom` and the configured
time already past, the calculator returns an instant strictly BEFORE
`now` (2024-01-15 09:00 < 2024-01-15 10:00), so the output is not always
strictly greater than `now`. -/
theorem c1_counterexample_custom_in_past :
    calculateNextRun .custom none none "09:00" "UTC" ⟨2024, 0, 15, 10, 0, 0⟩ =
      some ⟨2024, 0, 15, 9, 0, 0⟩ ∧
    toKey ⟨2024, 0, 15, 9, 0, 0⟩ < toKey ⟨2024, 0, 15, 10, 0, 0⟩ ∧
    ValidDT ⟨2024, 0, 15, 10, 0, 0⟩ := by
  decide

/-- Claim C1 (amended): for every schedule with frequency daily, weekly
or monthly, well-formed `HH:MM` time and any reference instant `now`,
the calculator returns an instant strictly greater than `now`; for the
`custom` frequency the result is today at the configured time, which can
be at or before `now`. -/
theorem c1_next_run_strictly_future (freq : Frequency) (dW dM : Option Nat)
    (time tz : String) (now : DTime)
    (hv : ValidDT now) (ht : matchHHMM time = true) (hf : freq ≠ .custom) :
    ∃ r, calculateNextRun freq dW dM time tz now = some r ∧ toKey now < toKey r := by
  unfold matchHHMM at ht
  obtain ⟨⟨h, mi⟩, hp⟩ := Option.isSome_iff_exists.mp ht
  refine ⟨calcNextRunCore freq dW dM h mi tz now,
    calculateNextRun_eq_some freq dW dM time tz now h mi hp, ?_⟩
  cases freq with
  | daily => exact future_daily dW dM h mi tz now hv
  | weekly => exact future_weekly dW dM h mi tz now hv
  | monthly => exact future_monthly dW dM h mi tz now hv
  | custom => exact absurd rfl hf

theorem c1_next_run_strictly_future_witness :
    ValidDT ⟨2024, 0, 15, 10, 0, 0⟩ ∧ matchHHMM "09:00" = true ∧
      Frequency.daily ≠ Frequency.custom ∧
      (∃ r, calculateNextRun .daily none none "09:00" "UTC" ⟨2024, 0, 15, 10, 0, 0⟩ =
        some r ∧ toKey ⟨2024, 0, 15, 10, 0, 0⟩ < toKey r) :=
  ⟨by decide, by decide, by decide,
    c1_next_run_strictly_future .daily none none "09:00" "UTC" ⟨2024, 0, 15, 10, 0, 0⟩
      (by decide) (by decide) (by decide)⟩

/-- Claim C5: for daily schedules the computed next run lies in
`(now, now + 24h]`, carries the configured time of day, and the two
spec scenarios (9am passed / 9am ahead on 2024-01-15) evaluate exactly
as stated. -/
theorem c5_daily_interval_and_scenarios :
    (∀ (dW dM : Option Nat) (time tz : String) (now : DTime),
      ValidDT now → matchHHMM time = true →
      ∃ r h mi, hhmmOf time.data = some (h, mi) ∧
        calculateNextRun .daily dW dM time tz now = some r ∧
        toKey now < toKey r ∧ toKey r ≤ toKey (plus24h now) ∧
        r.hour = h ∧ r.minute = mi ∧ r.second = 0) ∧
    calculateNextRun .daily none none "09:00" "UTC" ⟨2024, 0, 15, 10, 0, 0⟩ =
      some ⟨2024, 0, 16, 9, 0, 0⟩ ∧
    calculateNextRun .daily none none "09:00" "UTC" ⟨2024, 0, 15, 8, 0, 0⟩ =
      some ⟨2024, 0, 15, 9, 0, 0⟩ := by
  refine ⟨?_, by decide, by decide⟩
  intro dW dM time tz now hv ht
  unfold matchHHMM at ht
  obtain ⟨⟨h, mi⟩, hp⟩ := Option.isSome_iff_exists.mp ht
  have hb := hhmm_bounds time.data h mi hp
  obtain ⟨f1, f2, f3⟩ := core_fields .daily dW dM h mi tz now
  exact ⟨calcNextRunCore .daily dW dM h mi tz now, h, mi, hp,
    calculateNextRun_eq_some .daily dW dM time tz now h mi hp,
    future_daily dW dM h mi tz now hv,
    daily_le_plus24h dW dM h mi tz now hv hb.1 hb.2, f1, f2, f3⟩

/-- Claim C3, counterexample: weekly schedule targeting Wednesday
(`dayOfWeek = 3`), reference instant Tuesday 2024-01-16 10:00 with the
daily time 09:00 already past.  The code returns Wednesday 2024-01-24
09:00, although Wednesday 2024-01-17 09:00 is a strictly earlier
Wednesday-09:00 instant that is still strictly after `now` — so the
result is not the soonest matching instant. -/
theorem c3_counterexample_not_soonest :
    calculateNextRun .weekly (some 3) none "09:00" "UTC" ⟨2024, 0, 16, 10, 0, 0⟩ =
      some ⟨2024, 0, 24, 9, 0, 0⟩ ∧
    dowOf ⟨2024, 0, 17, 9, 0, 0⟩ = 3 ∧
    ValidDT ⟨2024, 0, 17, 9, 0, 0⟩ ∧
    toKey ⟨2024, 0, 16, 10, 0, 0⟩ < toKey ⟨2024, 0, 17, 9, 0, 0⟩ ∧
    toKey ⟨2024, 0, 17, 9, 0, 0⟩ < toKey ⟨2024, 0, 24, 9, 0, 0⟩ := by
  decide

/-- Claim C3 (amended): for weekly schedules with `dayOfWeek = d ≤ 6`
and well-formed time, the computed next run always falls on weekday `d`,
carries the configured time of day, and is strictly after `now`; it need
not be the soonest such instant (when today's occurrence has passed, the
code first jumps a full week and only then aligns the weekday, possibly
overshooting the nearest matching day). -/
theorem c3_weekly_lands_on_requested_weekday (w : Nat) (dM : Option Nat)
    (time tz : String) (now : DTime)
    (hv : ValidDT now) (ht : matchHHMM time = true) (hw : w ≤ 6) :
    ∃ r h mi, hhmmOf time.data = some (h, mi) ∧
      calculateNextRun .weekly (some w) dM time tz now = some r ∧
      dowOf r = w ∧ toKey now < toKey r ∧
      r.hour = h ∧ r.minute = mi ∧ r.second = 0 := by
  unfold matchHHMM at ht
  obtain ⟨⟨h, mi⟩, hp⟩ := Option.isSome_iff_exists.mp ht
  obtain ⟨f1, f2, f3⟩ := core_fields .weekly (some w) dM h mi tz now
  exact ⟨calcNextRunCore .weekly (some w) dM h mi tz now, h, mi, hp,
    calculateNextRun_eq_some .weekly (some w) dM time tz now h mi hp,
    weekly_dow w dM h mi tz now hv hw,
    future_weekly (some w) dM h mi tz now hv, f1, f2, f3⟩

theorem c3_weekly_lands_on_requested_weekday_witness :
    ValidDT ⟨2024, 0, 16, 10, 0, 0⟩ ∧ matchHHMM "09:00" = true ∧ (3 : Nat) ≤ 6 ∧
      (∃ r h mi, hhmmOf "09:00".data = some (h, mi) ∧
        calculateNextRun .weekly (some 3) none "09:00" "UTC" ⟨2024, 0, 16, 10, 0, 0⟩ =
          some r ∧
        dowOf r = 3 ∧ toKey ⟨2024, 0, 16, 10, 0, 0⟩ < toKey r ∧
        r.hour = h ∧ r.minute = mi ∧ r.second = 0) :=
  ⟨by decide, by decide, by decide,
    c3_weekly_lands_on_requested_weekday 3 none "09:00" "UTC" ⟨2024, 0, 16, 10, 0, 0⟩
      (by decide) (by decide) (by decide)⟩

/-- Claim C4, counterexample: monthly schedule with `dayOfMonth = 31`,
reference instant 2024-04-10 08:00 (April has 30 days) with time 09:00
still ahead.  The code returns 2024-04-10 09:00 — the run lands in a
30-day month with day 10, not the month's last day: outside the advance
branch `dayOfMonth` is ignored entirely, so the universally quantified
claim fails. -/
theorem c4_counterexample_no_clamp_when_time_ahead :
    calculateNextRun .monthly none (some 31) "09:00" "UTC" ⟨2024, 3, 10, 8, 0, 0⟩ =
      some ⟨2024, 3, 10, 9, 0, 0⟩ ∧
    daysInMonth 2024 3 = 30 ∧
    ValidDT ⟨2024, 3, 10, 8, 0, 0⟩ ∧
    (10 : Nat) ≠ 30 := by
  decide

/-- Claim C4 (amended): for a monthly schedule with `dayOfMonth = 31`,
whenever today's candidate time has already passed (so the monthly
advance executes), the computed run's day-of-month equals the last day
of the month the advance lands in — in particular it is clamped down in
any landing month with fewer than 31 days.  (When the candidate is still
ahead, the code returns today at the configured time and ignores
`dayOfMonth`; and the JavaScript `setMonth` overflow can skip a short
month, e.g. Jan 30 → March, before the clamp applies.) -/
theorem c4_monthly_clamps_to_last_day (dW : Option Nat) (time tz : String)
    (now : DTime) (h mi : Nat)
    (hp : hhmmOf time.data = some (h, mi))
    (hpassed : toKey (atTime now h mi) ≤ toKey now) :
    ∃ r, calculateNextRun .monthly dW (some 31) time tz now = some r ∧
      r.day = daysInMonth r.year r.month := by
  refine ⟨calcNextRunCore .monthly dW (some 31) h mi tz now,
    calculateNextRun_eq_some .monthly dW (some 31) time tz now h mi hp, ?_⟩
  rw [monthly_clamp_eval dW 31 h mi tz now (by omega) hpassed]
  show min 31 (daysInMonth (monthMoved now).1 (monthMoved now).2.1) =
    daysInMonth (monthMoved now).1 (monthMoved now).2.1
  exact min_eq_right (daysInMonth_bounds _ _).2

theorem c4_monthly_clamps_to_last_day_witness :
    hhmmOf "09:00".data = some (9, 0) ∧
    toKey (atTime ⟨2024, 0, 15, 10, 0, 0⟩ 9 0) ≤ toKey ⟨2024, 0, 15, 10, 0, 0⟩ ∧
    (∃ r, calculateNextRun .monthly none (some 31) "09:00" "UTC" ⟨2024, 0, 15, 10, 0, 0⟩ =
      some r ∧ r.day = daysInMonth r.year r.month) :=
  ⟨by decide, by decide,
    c4_monthly_clamps_to_last_day none "09:00" "UTC" ⟨2024, 0, 15, 10, 0, 0⟩ 9 0
      (by decide) (by decide)⟩

/-- The error condition exactly as claim C9's sentence lists it: the
time string fails HH:MM validation, or weekly without `dayOfWeek`, or
monthly without `dayOfMonth`. -/
def claimedScheduleError (s : ScheduleSpec) : Bool :=
  (match s.time with
   | some str => !(matchHHMM str)
   | none => false) ||
  (decide (s.frequency = some .weekly) && s.dayOfWeek.isNone) ||
  (decide (s.frequency = some .monthly) && s.dayOfMonth.isNone)

/-- Claim C9, counterexample: a schedule with frequency `daily`, valid
time "09:00" and `dayOfWeek = 7` fails mongoose validation (the
`max: 6` bound), yet none of the three error conditions the claim lists
holds — so validation does not fail "exactly when" the claim says. -/
theorem c9_counterexample_out_of_range_dayOfWeek :
    validateSchedule ⟨some .daily, some 7, none, some "09:00", "UTC", true⟩ = false ∧
    claimedScheduleError ⟨some .daily, some 7, none, some "09:00", "UTC", true⟩ = false := by
  decide

/-- Claim C9 (amended): schedule validation fails exactly when one of
the claim's conditions holds (bad HH:MM string, weekly without
`dayOfWeek`, monthly without `dayOfMonth`) OR one of three further
schema conditions the claim omits: a frequency set without any `time`,
a `dayOfWeek` outside 0–6, or a `dayOfMonth` outside 1–31.  The
calculator itself is total on validated time strings: it has no other
failure modes and, being a pure function, no side effects. -/
theorem c9_schedule_validation_exact :
    (∀ s : ScheduleSpec, validateSchedule s = false ↔
      (claimedScheduleError s = true ∨
        (s.frequency.isSome ∧ s.time = none) ∨
        (∃ v, s.dayOfWeek = some v ∧ ¬(0 ≤ v ∧ v ≤ 6)) ∨
        (∃ v, s.dayOfMonth = some v ∧ ¬(1 ≤ v ∧ v ≤ 31)))) ∧
    (∀ (freq : Frequency) (dW dM : Option Nat) (time tz : String) (now : DTime),
      matchHHMM time = true →
      (calculateNextRun freq dW dM time tz now).isSome = true) := by
  constructor
  · intro s
    obtain ⟨f, dw, dm, t, tz, a⟩ := s
    unfold validateSchedule dayOfWeekFieldOk dayOfMonthFieldOk timeFieldOk claimedScheduleError
    rcases dw with _ | v <;> rcases dm with _ | v' <;> rcases t with _ | str <;>
      rcases f with _ | f <;>
      (try cases f) <;>
      (try cases hms : matchHHMM str) <;>
      simp [Option.isSome, *] <;>
      omega
  · intro freq dW dM time tz now ht
    unfold matchHHMM at ht
    obtain ⟨⟨h, mi⟩, hp⟩ := Option.isSome_iff_exists.mp ht
    rw [calculateNextRun_eq_some freq dW dM time tz now h mi hp]
    rfl

/-- Claim C2: for a reply chain rooted at a freshly created message `A`
(id `a`), with reply `B` (id `b`, `parentMessage = a`) and reply `C`
(id `c`, `parentMessage = b`) saved through the model's hooks, `A.isThread`
is true as soon as `B` is saved (and stays true), and both `B.threadId`
and `C.threadId` resolve to `a`, the root's identifier. -/
theorem c2_reply_chain_converges (st : Store) (a b c sA sB sC : Nat)
    (rA rB rC : List Recipient) (suA suB suC boA boB boC : String)
    (hab : a ≠ b) (hac : a ≠ c) (hbc : b ≠ c) :
    ((saveMsg (saveMsg st (newMessage a sA rA suA boA none))
        (newMessage b sB rB suB boB (some a)) a).map Msg.isThread = some true) ∧
    ((saveMsg (saveMsg (saveMsg st (newMessage a sA rA suA boA none))
        (newMessage b sB rB suB boB (some a)))
        (newMessage c sC rC suC boC (some b)) b).map Msg.threadId = some (some a)) ∧
    ((saveMsg (saveMsg (saveMsg st (newMessage a sA rA suA boA none))
        (newMessage b sB rB suB boB (some a)))
        (newMessage c sC rC suC boC (some b)) c).map Msg.threadId = some (some a)) ∧
    ((saveMsg (saveMsg (saveMsg st (newMessage a sA rA suA boA none))
        (newMessage b sB rB suB boB (some a)))
        (newMessage c sC rC suC boC (some b)) a).map Msg.isThread = some true) := by
  have hba : b ≠ a := Ne.symm hab
  have hca : c ≠ a := Ne.symm hac
  have hcb : c ≠ b := Ne.symm hbc
  refine ⟨?_, ?_, ?_, ?_⟩ <;>
    simp [saveMsg, preSave, postSave, insertMsg, setParentIsThread, newMessage,
      hab, hac, hbc, hba, hca, hcb]

theorem c2_reply_chain_converges_witness :
    (0 : Nat) ≠ 1 ∧ (0 : Nat) ≠ 2 ∧ (1 : Nat) ≠ 2 ∧
    (((saveMsg (saveMsg emptyStore (newMessage 0 7 [] "s" "b" none))
        (newMessage 1 7 [] "s" "b" (some 0)) 0).map Msg.isThread = some true) ∧
    ((saveMsg (saveMsg (saveMsg emptyStore (newMessage 0 7 [] "s" "b" none))
        (newMessage 1 7 [] "s" "b" (some 0)))
        (newMessage 2 7 [] "s" "b" (some 1)) 1).map Msg.threadId = some (some 0)) ∧
    ((saveMsg (saveMsg (saveMsg emptyStore (newMessage 0 7 [] "s" "b" none))
        (newMessage 1 7 [] "s" "b" (some 0)))
        (newMessage 2 7 [] "s" "b" (some 1)) 2).map Msg.threadId = some (some 0)) ∧
    ((saveMsg (saveMsg (saveMsg emptyStore (newMessage 0 7 [] "s" "b" none))
        (newMessage 1 7 [] "s" "b" (some 0)))
        (newMessage 2 7 [] "s" "b" (some 1)) 0).map Msg.isThread = some true)) :=
  ⟨by decide, by decide, by decide,
    c2_reply_chain_converges emptyStore 0 1 2 7 7 7 [] [] [] "s" "s" "s" "b" "b" "b"
      (by decide) (by decide) (by decide)⟩

/-- Claim C6: saving a message whose `parentMessage` references an
identifier absent from the store succeeds, stores the message unchanged
(standalone: `threadId` stays unset, `isThread` stays false), and leaves
every other record in the store untouched — no thread is fabricated. -/
theorem c6_missing_parent_standalone (st : Store) (m : Msg) (p : Nat)
    (hpar : m.parentMessage = some p) (hth : m.threadId = none)
    (hflag : m.isThread = false) (hp : st p = none) (hpm : p ≠ m.id) :
    saveMsg st m m.id = some m ∧ (∀ i, i ≠ m.id → saveMsg st m i = st i) := by
  constructor
  · simp [saveMsg, preSave, postSave, insertMsg, setParentIsThread,
      hpar, hth, hflag, hp, hpm, Ne.symm hpm]
  · intro i hi
    by_cases hip : i = p
    · subst hip
      simp [saveMsg, preSave, postSave, insertMsg, setParentIsThread,
        hpar, hth, hflag, hp, hpm]
    · simp [saveMsg, preSave, postSave, insertMsg, setParentIsThread,
        hpar, hth, hflag, hp, hpm, hi, hip]

theorem c6_missing_parent_standalone_witness :
    (newMessage 5 1 [] "s" "b" (some 99)).parentMessage = some 99 ∧
    (newMessage 5 1 [] "s" "b" (some 99)).threadId = none ∧
    (newMessage 5 1 [] "s" "b" (some 99)).isThread = false ∧
    emptyStore 99 = none ∧ (99 : Nat) ≠ (newMessage 5 1 [] "s" "b" (some 99)).id ∧
    (saveMsg emptyStore (newMessage 5 1 [] "s" "b" (some 99))
        (newMessage 5 1 [] "s" "b" (some 99)).id =
      some (newMessage 5 1 [] "s" "b" (some 99)) ∧
    (∀ i, i ≠ (newMessage 5 1 [] "s" "b" (some 99)).id →
      saveMsg emptyStore (newMessage 5 1 [] "s" "b" (some 99)) i = emptyStore i)) :=
  ⟨by decide, by decide, by decide, by decide, by decide,
    c6_missing_parent_standalone emptyStore (newMessage 5 1 [] "s" "b" (some 99)) 99
      (by decide) (by decide) (by decide) (by decide) (by decide)⟩

/-- Claim C8: saving a message with `parentMessage` set marks the
stored parent's `isThread` true, and the update is idempotent: saving a
second reply to the same parent leaves the parent record exactly as it
was after the first reply. -/
theorem c8_parent_flag_true_and_idempotent (st : Store) (m m2 : Msg) (p : Nat)
    (parent : Msg)
    (hpar : m.parentMessage = some p) (hp : st p = some parent)
    (hm : st m.id = none)
    (hpar2 : m2.parentMessage = some p) (hm2 : saveMsg st m m2.id = none) :
    ((saveMsg st m p).map Msg.isThread = some true) ∧
    saveMsg (saveMsg st m) m2 p = saveMsg st m p := by
  have hpm : p ≠ m.id := by
    intro he; rw [he, hm] at hp; exact absurd hp (by simp)
  have hst1p : saveMsg st m p = some { parent with isThread := true } := by
    by_cases hmt : m.threadId = none <;>
      simp [saveMsg, preSave, postSave, insertMsg, setParentIsThread,
        hpar, hp, hmt, hpm, Ne.symm hpm]
  have hpm2 : p ≠ m2.id := by
    intro he; rw [he, hm2] at hst1p; exact absurd hst1p (by simp)
  refine ⟨by simp [hst1p], ?_⟩
  generalize hg : saveMsg st m = st1
  rw [hg] at hst1p
  by_cases h2t : m2.threadId = none <;>
    simp [saveMsg, preSave, postSave, insertMsg, setParentIsThread,
      hpar2, h2t, hst1p, hpm2, Ne.symm hpm2]

theorem c8_parent_flag_true_and_idempotent_witness :
    (newMessage 1 7 [] "s" "b" (some 0)).parentMessage = some 0 ∧
    saveMsg emptyStore (newMessage 0 7 [] "s" "b" none) 0 =
      some (newMessage 0 7 [] "s" "b" none) ∧
    saveMsg emptyStore (newMessage 0 7 [] "s" "b" none)
      (newMessage 1 7 [] "s" "b" (some 0)).id = none ∧
    (newMessage 2 7 [] "s" "b" (some 0)).parentMessage = some 0 ∧
    saveMsg (saveMsg emptyStore (newMessage 0 7 [] "s" "b" none))
      (newMessage 1 7 [] "s" "b" (some 0)) (newMessage 2 7 [] "s" "b" (some 0)).id = none ∧
    (((saveMsg (saveMsg emptyStore (newMessage 0 7 [] "s" "b" none))
        (newMessage 1 7 [] "s" "b" (some 0)) 0).map Msg.isThread = some true) ∧
      saveMsg (saveMsg (saveMsg emptyStore (newMessage 0 7 [] "s" "b" none))
          (newMessage 1 7 [] "s" "b" (some 0))) (newMessage 2 7 [] "s" "b" (some 0)) 0 =
        saveMsg (saveMsg emptyStore (newMessage 0 7 [] "s" "b" none))
          (newMessage 1 7 [] "s" "b" (some 0)) 0) :=
  ⟨by decide, by decide, by decide, by decide, by decide,
    c8_parent_flag_true_and_idempotent
      (saveMsg emptyStore (newMessage 0 7 [] "s" "b" none))
      (newMessage 1 7 [] "s" "b" (some 0)) (newMessage 2 7 [] "s" "b" (some 0)) 0
      (newMessage 0 7 [] "s" "b" none)
      (by decide) (by decide) (by decide) (by decide) (by decide)⟩

theorem insertMsg_apply (st : Store) (m : Msg) (i : Nat) :
    insertMsg st m i = if i = m.id then some m else st i := rfl

theorem setParentIsThread_apply (st : Store) (p i : Nat) :
    setParentIsThread st p i =
      if i = p then (st p).map (fun r => { r with isThread := true }) else st i := rfl

/-- Claim C7 (amended) -/
theorem c7_isThread_implies_direct_reply (st : Store) (hr : Reaches st) :
    ∀ i mm, st i = some mm → mm.isThread = true →
    ∃ j r, st j = some r ∧ r.parentMessage = some i := by
  induction hr with
  | empty =>
    intro i mm hm _
    exact absurd hm (by simp [emptyStore])
  | save st0 id sender recips subj bo parent hr0 hfresh ih =>
    intro i mm hm hth
    cases parent with
    | none =>
      have hsm : saveMsg st0 (newMessage id sender recips subj bo none) =
          insertMsg st0 (newMessage id sender recips subj bo none) := by
        simp [saveMsg, preSave, postSave, newMessage]
      rw [hsm] at hm ⊢
      have hid : (newMessage id sender recips subj bo none).id = id := rfl
      by_cases hii : i = id
      · rw [insertMsg_apply, hid, if_pos hii] at hm
        have he := Option.some.inj hm
        rw [← he] at hth
        exact absurd hth (by simp [newMessage])
      · rw [insertMsg_apply, hid, if_neg hii] at hm
        obtain ⟨j, r, hj, hrp⟩ := ih i mm hm hth
        have hji : j ≠ id := fun he => by rw [he, hfresh] at hj; exact absurd hj (by simp)
        exact ⟨j, r, by rw [insertMsg_apply, hid, if_neg hji]; exact hj, hrp⟩
    | some p =>
      obtain ⟨m1, hm1save, hm1flag, hm1par, hm1id⟩ :
          ∃ m1, saveMsg st0 (newMessage id sender recips subj bo (some p)) =
              setParentIsThread (insertMsg st0 m1) p ∧
            m1.isThread = false ∧ m1.parentMessage = some p ∧ m1.id = id := by
        cases hsp : st0 p with
        | some par =>
          refine ⟨{ newMessage id sender recips subj bo (some p) with
              threadId := some (par.threadId.getD par.id), isThread := false },
            ?_, ?_, ?_, ?_⟩ <;>
            simp [saveMsg, preSave, postSave, newMessage, hsp]
        | none =>
          refine ⟨newMessage id sender recips subj bo (some p), ?_, ?_, ?_, ?_⟩ <;>
            simp [saveMsg, preSave, postSave, newMessage, hsp]
      rw [hm1save] at hm ⊢
      have hins : ∀ q, insertMsg st0 m1 q = if q = id then some m1 else st0 q := fun q => by
        rw [insertMsg_apply, hm1id]
      by_cases hip : i = p
      · have hm0 := hm
        rw [setParentIsThread_apply, if_pos hip, hins] at hm0
        by_cases hpid : p = id
        · rw [if_pos hpid, Option.map_some'] at hm0
          have he := Option.some.inj hm0
          refine ⟨i, mm, hm, ?_⟩
          rw [← he]
          show m1.parentMessage = some i
          rw [hm1par, hip]
        · refine ⟨id, m1, ?_, by rw [hm1par, hip]⟩
          rw [setParentIsThread_apply, if_neg (fun hq : id = p => hpid hq.symm), hins,
            if_pos rfl]
      · have hm0 := hm
        rw [setParentIsThread_apply, if_neg hip, hins] at hm0
        by_cases hii : i = id
        · rw [if_pos hii] at hm0
          have he := Option.some.inj hm0
          rw [← he, hm1flag] at hth
          exact absurd hth (by simp)
        · rw [if_neg hii] at hm0
          obtain ⟨j, r, hj, hrp⟩ := ih i mm hm0 hth
          have hji : j ≠ id := fun he => by rw [he, hfresh] at hj; exact absurd hj (by simp)
          by_cases hjp : j = p
          · refine ⟨j, { r with isThread := true }, ?_, by simp [hrp]⟩
            rw [setParentIsThread_apply, if_pos hjp, hins,
              if_neg (fun hq : p = id => hji (hjp.trans hq)), ← hjp, hj, Option.map_some']
          · refine ⟨j, r, ?_, hrp⟩
            rw [setParentIsThread_apply, if_neg hjp, hins, if_neg hji]
            exact hj

/-- Claim C7, counterexample: in the chain `0 ← 1 ← 2` (message 1 replies
to 0, message 2 replies to 1), after all saves message 1 carries
`isThread = true` although it is not a thread root (its `parentMessage`
is set); and a message posted through the secondary route with a
`parentMessageId` gets `isThread = true` at creation despite having no
replies at all. -/
theorem c7_counterexample_nonroot_flagged :
    ((saveMsg (saveMsg (saveMsg emptyStore (newMessage 0 10 [] "s" "b" none))
        (newMessage 1 10 [] "s" "b" (some 0)))
        (newMessage 2 10 [] "s" "b" (some 1)) 1).map Msg.isThread = some true) ∧
    ((saveMsg (saveMsg (saveMsg emptyStore (newMessage 0 10 [] "s" "b" none))
        (newMessage 1 10 [] "s" "b" (some 0)))
        (newMessage 2 10 [] "s" "b" (some 1)) 1).map Msg.parentMessage =
      some (some 0)) ∧
    ((attendancePostMessage emptyStore 5 9 [3] "s" "b" (some 42) false 5).map
      Msg.isThread = some true) := by
  decide

theorem c7_isThread_implies_direct_reply_witness :
    (saveMsg (saveMsg emptyStore (newMessage 0 7 [] "s" "b" none))
        (newMessage 1 7 [] "s" "b" (some 0)) 0 =
      some { newMessage 0 7 [] "s" "b" none with isThread := true }) ∧
    ({ newMessage 0 7 [] "s" "b" none with isThread := true } : Msg).isThread = true ∧
    (∃ j r, saveMsg (saveMsg emptyStore (newMessage 0 7 [] "s" "b" none))
        (newMessage 1 7 [] "s" "b" (some 0)) j = some r ∧
      r.parentMessage = some 0) :=
  ⟨by decide, by decide,
    c7_isThread_implies_direct_reply
      (saveMsg (saveMsg emptyStore (newMessage 0 7 [] "s" "b" none))
        (newMessage 1 7 [] "s" "b" (some 0)))
      (Reaches.save (saveMsg emptyStore (newMessage 0 7 [] "s" "b" none))
        1 7 [] "s" "b" (some 0)
        (Reaches.save emptyStore 0 7 [] "s" "b" none Reaches.empty (by decide))
        (by decide))
      0 { newMessage 0 7 [] "s" "b" none with isThread := true }
      (by decide) (by decide)⟩

theorem applyUpd_allowed_frame (m : Msg) (u : MUpdate)
    (hu : allowedUpdates.contains (keyOf u) = true) :
    (applyUpd m u).sender = m.sender ∧ (applyUpd m u).parentMessage = m.parentMessage ∧
    (applyUpd m u).threadId = m.threadId ∧ (applyUpd m u).isThread = m.isThread ∧
    (applyUpd m u).id = m.id := by
  cases u <;>
    first
    | exact ⟨rfl, rfl, rfl, rfl, rfl⟩
    | (exfalso; simp [allowedUpdates, keyOf] at hu)

/-- The whitelist filter protects the identity and thread-bookkeeping
fields: applying any run of whitelisted writes leaves `sender`,
`parentMessage`, `threadId`, `isThread` (and `_id`) untouched. -/
theorem applyUpdates_frame (l : List MUpdate) :
    ∀ m : Msg, (∀ u ∈ l, allowedUpdates.contains (keyOf u) = true) →
    (applyUpdates m l).sender = m.sender ∧
    (applyUpdates m l).parentMessage = m.parentMessage ∧
    (applyUpdates m l).threadId = m.threadId ∧
    (applyUpdates m l).isThread = m.isThread ∧
    (applyUpdates m l).id = m.id := by
  induction l with
  | nil => intro m _; exact ⟨rfl, rfl, rfl, rfl, rfl⟩
  | cons u l ih =>
    intro m hall
    have h1 := applyUpd_allowed_frame m u (hall u (by simp))
    have h2 := ih (applyUpd m u) (fun v hv => hall v (by simp [hv]))
    have he : applyUpdates m (u :: l) = applyUpdates (applyUpd m u) l := rfl
    rw [he]
    exact ⟨h2.1.trans h1.1, h2.2.1.trans h1.2.1, h2.2.2.1.trans h1.2.2.1,
      h2.2.2.2.1.trans h1.2.2.2.1, h2.2.2.2.2.trans h1.2.2.2.2⟩

/-- With `threadId` already set, a save runs no thread resolution: the
pre-hook is a no-op and the post-hook at most flags the parent. -/
theorem saveMsg_eval_threadId_set (st : Store) (m : Msg) (hth : ¬m.threadId = none) :
    saveMsg st m = match m.parentMessage with
      | some q => setParentIsThread (insertMsg st m) q
      | none => insertMsg st m := by
  cases hpm : m.parentMessage <;>
    simp [saveMsg, preSave, postSave, hpm, hth]

/-- Claim C10 (amended): an `updateMessage` request, whatever its body
contains, cannot modify the stored message's `sender`, `parentMessage`,
`threadId` or `isThread` through the request body — only whitelisted
fields are copied — and, provided the message's `threadId` is already
set (and it is not its own parent), the save hooks leave those four
fields untouched as well.  (When `threadId` is still unset, the save's
own hooks may lazily fill it in — the claim as stated fails there.) -/
theorem c10_update_preserves_thread_fields (st : Store) (userId mid : Nat)
    (updates : List MUpdate) (nowT : Nat) (m : Msg)
    (hm : st mid = some m) (hid : m.id = mid)
    (ht : ¬m.threadId = none) (hpar : m.parentMessage ≠ some mid) :
    ∃ m', updateMessage st userId mid updates nowT mid = some m' ∧
      m'.sender = m.sender ∧ m'.parentMessage = m.parentMessage ∧
      m'.threadId = m.threadId ∧ m'.isThread = m.isThread := by
  have hsave : ∀ m2 : Msg, m2.sender = m.sender → m2.parentMessage = m.parentMessage →
      m2.threadId = m.threadId → m2.isThread = m.isThread → m2.id = mid →
      ∃ m', saveMsg st m2 mid = some m' ∧
        m'.sender = m.sender ∧ m'.parentMessage = m.parentMessage ∧
        m'.threadId = m.threadId ∧ m'.isThread = m.isThread := by
    intro m2 e1 e2 e3 e4 e5
    have h2t : ¬m2.threadId = none := by rw [e3]; exact ht
    rw [saveMsg_eval_threadId_set st m2 h2t]
    cases hq : m2.parentMessage with
    | none =>
      refine ⟨m2, ?_, e1, e2, e3, e4⟩
      show insertMsg st m2 mid = some m2
      rw [insertMsg_apply, if_pos e5.symm]
    | some q =>
      have hqmid : mid ≠ q := by
        intro he
        rw [← he] at hq
        rw [e2] at hq
        exact hpar hq
      refine ⟨m2, ?_, e1, e2, e3, e4⟩
      show setParentIsThread (insertMsg st m2) q mid = some m2
      rw [setParentIsThread_apply, if_neg hqmid, insertMsg_apply, if_pos e5.symm]
  by_cases hemp : (updates.filter (fun u => allowedUpdates.contains (keyOf u))).isEmpty = true
  · simp only [updateMessage, hemp, if_true]
    exact ⟨m, hm, rfl, rfl, rfl, rfl⟩
  · have hemp' : (updates.filter (fun u => allowedUpdates.contains (keyOf u))).isEmpty = false := by
      revert hemp
      cases (updates.filter (fun u => allowedUpdates.contains (keyOf u))).isEmpty <;> simp
    simp only [updateMessage, hemp', Bool.false_eq_true, if_false, hm]
    by_cases hacc : m.sender = userId ∨ m.recipients.any (fun r => r.user = userId)
    · rw [if_pos hacc]
      by_cases hsend : m.sender = userId
      · rw [if_pos hsend]
        have hall : ∀ u ∈ updates.filter (fun u => allowedUpdates.contains (keyOf u)),
            allowedUpdates.contains (keyOf u) = true := by
          intro u hu
          exact (List.mem_filter.mp hu).2
        obtain ⟨f1, f2, f3, f4, f5⟩ := applyUpdates_frame _ m hall
        exact hsave _ f1 f2 f3 f4 (f5.trans hid)
      · rw [if_neg hsend]
        cases hidx : m.recipients.findIdx? (fun r => r.user = userId) with
        | none => exact ⟨m, hm, rfl, rfl, rfl, rfl⟩
        | some idx =>
          show ∃ m', recipientUpdate st m idx
              (updates.filter (fun u => allowedUpdates.contains (keyOf u))) nowT mid =
              some m' ∧
            m'.sender = m.sender ∧ m'.parentMessage = m.parentMessage ∧
            m'.threadId = m.threadId ∧ m'.isThread = m.isThread
          unfold recipientUpdate
          cases hrec : m.recipients[idx]? with
          | none => exact ⟨m, hm, rfl, rfl, rfl, rfl⟩
          | some r => exact hsave _ rfl rfl rfl rfl hid
    · rw [if_neg hacc]
      exact ⟨m, hm, rfl, rfl, rfl, rfl⟩

/-- Claim C10, counterexample: message 0 is a thread root (`isThread`
true after reply 1, `threadId` still unset).  A plain `updateMessage`
request from the sender that only stars the message triggers the save
hooks, which set `threadId` from unset to the message's own id — so
`threadId` is NOT left unchanged by every update request. -/
theorem c10_counterexample_hooks_set_threadId :
    ((saveMsg (saveMsg emptyStore (newMessage 0 7 [] "s" "b" none))
        (newMessage 1 7 [] "s" "b" (some 0)) 0).map Msg.threadId = some none) ∧
    ((updateMessage (saveMsg (saveMsg emptyStore (newMessage 0 7 [] "s" "b" none))
        (newMessage 1 7 [] "s" "b" (some 0))) 7 0
        [.setIsStarred true] 99 0).map Msg.threadId = some (some 0)) := by
  decide

theorem c10_update_preserves_thread_fields_witness :
    (saveMsg (saveMsg emptyStore (newMessage 0 7 [] "s" "b" none))
        (newMessage 1 7 [] "s" "b" (some 0)) 1 =
      some { newMessage 1 7 [] "s" "b" (some 0) with
        threadId := some 0, isThread := false }) ∧
    ({ newMessage 1 7 [] "s" "b" (some 0) with
        threadId := some 0, isThread := false } : Msg).id = 1 ∧
    ¬({ newMessage 1 7 [] "s" "b" (some 0) with
        threadId := some 0, isThread := false } : Msg).threadId = none ∧
    ({ newMessage 1 7 [] "s" "b" (some 0) with
        threadId := some 0, isThread := false } : Msg).parentMessage ≠ some 1 ∧
    (∃ m', updateMessage (saveMsg (saveMsg emptyStore (newMessage 0 7 [] "s" "b" none))
        (newMessage 1 7 [] "s" "b" (some 0))) 7 1 [.setIsStarred true] 99 1 = some m' ∧
      m'.sender = ({ newMessage 1 7 [] "s" "b" (some 0) with
        threadId := some 0, isThread := false } : Msg).sender ∧
      m'.parentMessage = ({ newMessage 1 7 [] "s" "b" (some 0) with
        threadId := some 0, isThread := false } : Msg).parentMessage ∧
      m'.threadId = ({ newMessage 1 7 [] "s" "b" (some 0) with
        threadId := some 0, isThread := false } : Msg).threadId ∧
      m'.isThread = ({ newMessage 1 7 [] "s" "b" (some 0) with
        threadId := some 0, isThread := false } : Msg).isThread) :=
  ⟨by decide, by decide, by decide, by decide,
    c10_update_preserves_thread_fields
      (saveMsg (saveMsg emptyStore (newMessage 0 7 [] "s" "b" none))
        (newMessage 1 7 [] "s" "b" (some 0))) 7 1 [.setIsStarred true] 99
      { newMessage 1 7 [] "s" "b" (some 0) with threadId := some 0, isThread := false }
      (by decide) (by decide) (by decide) (by decide)⟩
